import Mathlib

/-!
Verification development for the riptide binary-supervisor hooks
(`src/hooks.ts`).  The definitions below are a shallow embedding of the
TypeScript source: log lines are `List Char`, JS numbers that hold integral
millisecond timestamps are `Nat`, fractional uptime values are `Rat`, and
the global mutable `processState` becomes an explicit `SupState` value
threaded through each operation.  Asynchronous callbacks (the exit
observer, the restart timer, the two stream readers, the periodic health
hook) are modelled as an event alphabet acted on by a step function.
-/

set_option maxHeartbeats 1600000
set_option linter.unusedVariables false

/-- Log lines and string data from the child process are modelled as lists
of characters, mirroring JavaScript strings. -/
abbrev Str := List Char

/-- Lowercase a string, as `line.toLowerCase()` does on the ASCII text the
supervisor matches against (Lean `Char.toLower` folds ASCII letters). -/
def toLowerStr (s : Str) : Str := s.map Char.toLower

/-- Model of `lowerLine.indexOf(pat) !== -1`: does `pat` occur as a
contiguous substring of the second argument? -/
def containsSubstr (pat : Str) : Str → Bool
  | [] => pat.isEmpty
  | c :: rest => pat.isPrefixOf (c :: rest) || containsSubstr pat rest

-- ===========================================================================
-- CircularBuffer (hooks.ts lines 60-99), element type specialised to Str.
-- `buffer` is the backing JS array of length `capacity`; `undefined` slots
-- are `none`.
-- ===========================================================================

structure CircularBuffer where
  capacity : Nat
  buffer : List (Option Str)
  head : Nat
  size : Nat
deriving DecidableEq, Repr

/-- Model of `new CircularBuffer(capacity)`: a fresh all-undefined backing
array with head and size zero. -/
def CircularBuffer.mkEmpty (n : Nat) : CircularBuffer :=
  ⟨n, List.replicate n none, 0, 0⟩

/-- Model of `push`: write at `head`, advance `head` modulo `capacity`,
saturate `size` at `capacity`. -/
def CircularBuffer.push (b : CircularBuffer) (x : Str) : CircularBuffer :=
  { b with
    buffer := b.buffer.set b.head (some x)
    head := (b.head + 1) % b.capacity
    size := min (b.size + 1) b.capacity }

/-- Model of `getAll`: read `size` slots starting from `head` when the
buffer is full (else from 0), skipping `undefined` slots exactly as the
source loop does. -/
def CircularBuffer.getAll (b : CircularBuffer) : List Str :=
  let start := if b.size = b.capacity then b.head else 0
  (List.range b.size).filterMap fun i => b.buffer.getD ((start + i) % b.capacity) none

/-- Model of `getRecent(n) = getAll().slice(-n)`.  JavaScript `slice(-0)`
is `slice(0)` and returns the whole array, hence the `n = 0` branch. -/
def CircularBuffer.getRecent (b : CircularBuffer) (n : Nat) : List Str :=
  let all := b.getAll
  if n = 0 then all else all.drop (all.length - n)

/-- Model of `clear`: reallocate the backing array, reset head and size. -/
def CircularBuffer.clear (b : CircularBuffer) : CircularBuffer :=
  ⟨b.capacity, List.replicate b.capacity none, 0, 0⟩

/-- Pushing a whole list of lines in order, used to describe sequences of
pushes in the stated properties. -/
def CircularBuffer.pushAll (b : CircularBuffer) (ps : List Str) : CircularBuffer :=
  ps.foldl CircularBuffer.push b

-- ===========================================================================
-- Uptime extraction (hooks.ts lines 45-49 and 173-188).
-- Each regex in UPTIME_PATTERNS has the shape
--   KEY [:\s]+ (\d+(\.\d+)?) \s* (seconds?|s)   with the /i flag,
-- searched unanchored over the line.  The matcher below follows the regex
-- literally; the character-class steps are greedy, which is faithful
-- because no class overlaps the token that must follow it, so the regex
-- engine never needs to backtrack into a shorter class match.
-- ===========================================================================

/-- Character class `[:\s]` of the uptime regexes. -/
def sepChar (c : Char) : Bool := c == ':' || c.isWhitespace

/-- Fold decimal digit characters to a natural number. -/
def digitsToNat (ds : Str) : Nat :=
  ds.foldl (fun a c => 10 * a + (c.toNat - 48)) 0

/-- Numeric value of `parseFloat` on a captured group made of an integer
digit run and an optional fractional digit run. -/
def decimalToRat (ip fp : Str) : Rat :=
  (digitsToNat ip : Rat) + (digitsToNat fp : Rat) / (10 : Rat) ^ fp.length

/-- Match the common tail `[:\s]+(\d+(\.\d+)?)\s*(seconds?|s)` of every
uptime pattern at the current position, returning the parsed capture.
The alternation `seconds?|s` succeeds exactly when the next character is
an `s`, so only that character is inspected. -/
def matchTail : Str → Option Rat
  | [] => none
  | c :: rest =>
    if sepChar c then
      let s2 := rest.dropWhile sepChar
      let ds := s2.takeWhile Char.isDigit
      if ds.isEmpty then none
      else
        let s3 := s2.drop ds.length
        let fr : Str × Str :=
          match s3 with
          | '.' :: r =>
            let fs := r.takeWhile Char.isDigit
            if fs.isEmpty then ([], s3) else (fs, r.drop fs.length)
          | _ => ([], s3)
        let s4 := fr.2.dropWhile Char.isWhitespace
        match s4 with
        | 's' :: _ => some (decimalToRat ds fr.1)
        | _ => none
    else none

/-- Consume a literal keyword at the current position. -/
def matchKeyword (key : Str) (s : Str) : Option Str :=
  if key.isPrefixOf s then some (s.drop key.length) else none

/-- Attempt of pattern `uptime[:\s]+(\d+(\.\d+)?)\s*(seconds?|s)` at one
position of the lowercased line. -/
def pat1At (s : Str) : Option Rat :=
  (matchKeyword "uptime".toList s).bind matchTail

/-- Attempt of pattern `running\s+for[:\s]+...` at one position. -/
def pat2At (s : Str) : Option Rat :=
  (matchKeyword "running".toList s).bind fun r =>
    match r with
    | c :: rest =>
      if c.isWhitespace then
        (matchKeyword "for".toList (rest.dropWhile Char.isWhitespace)).bind matchTail
      else none
    | [] => none

/-- Attempt of pattern `alive[:\s]+...` at one position. -/
def pat3At (s : Str) : Option Rat :=
  (matchKeyword "alive".toList s).bind matchTail

/-- Unanchored regex search: try the pattern at every start position,
left to right, as `String.prototype.match` does. -/
def searchFrom (f : Str → Option Rat) : Str → Option Rat
  | [] => f []
  | c :: rest =>
    match f (c :: rest) with
    | some v => some v
    | none => searchFrom f rest

/-- Model of the inner loop of `extractUptimeFromLogs`: try the three
pre-compiled patterns in order against one line (case-insensitively) and
return the parsed capture of the first that matches. -/
def lineUptime (line : Str) : Option Rat :=
  let low := toLowerStr line
  match searchFrom pat1At low with
  | some v => some v
  | none =>
    match searchFrom pat2At low with
    | some v => some v
    | none => searchFrom pat3At low

/-- Model of the outer loop of `extractUptimeFromLogs`: indices
`n-1, n-2, ..., 0` of `lines`, newest first. -/
def extractLoop (lines : List Str) : Nat → Rat
  | 0 => 0
  | n + 1 =>
    match lineUptime (lines.getD n []) with
    | some v => v
    | none => extractLoop lines n

/-- Model of `extractUptimeFromLogs` (hooks.ts lines 173-188): scan the 50
most recent buffered lines from newest to oldest and return the first
match, defaulting to 0. -/
def extractUptimeFromLogs (logs : CircularBuffer) : Rat :=
  let recentLogs := logs.getRecent 50
  extractLoop recentLogs recentLogs.length

-- ===========================================================================
-- Restart policy (hooks.ts lines 205-213).  `Math.random()` is isolated as
-- an explicit rational parameter `r` with 0 <= r < 1.
-- ===========================================================================

/-- Jitter-free part of the backoff: `Math.min(baseDelay * 2 ** attempt, maxDelay)`. -/
def backoffBase (attempt baseDelay maxDelay : Nat) : Nat :=
  min (baseDelay * 2 ^ attempt) maxDelay

/-- Model of `calculateBackoff`: add `r * 0.3 * delay` jitter and apply
`Math.floor`. -/
def calculateBackoff (attempt baseDelay maxDelay : Nat) (r : Rat) : Int :=
  let d : Rat := (backoffBase attempt baseDelay maxDelay : Rat)
  ⌊d + r * (3 / 10) * d⌋

-- ===========================================================================
-- Error keyword scan (hooks.ts lines 52 and 412-423).
-- ===========================================================================

/-- The fixed keyword set `ERROR_KEYWORDS`, kept in source order. -/
def ERROR_KEYWORDS : List Str :=
  ["error".toList, "exception".toList, "failed".toList, "critical".toList, "fatal".toList]

/-- Model of the per-line scan inside `metrics.hasErrors`: lowercase the
line and look for any keyword with `indexOf`. -/
def hasErrorKeyword (log : Str) : Bool :=
  ERROR_KEYWORDS.any fun kw => containsSubstr kw (toLowerStr log)

-- ===========================================================================
-- Supervisor data model (hooks.ts lines 104-134 and 218-234).  The
-- wall-clock duration / memory fields of PerformanceMetrics are timing
-- observations with no influence on control flow and are not modelled.
-- ===========================================================================

structure HealthMetrics where
  uptime : Rat
  isRunning : Bool
  hasErrors : Bool
  uptimeIncreasing : Bool
deriving DecidableEq, Repr

structure HealthCacheEntry where
  metrics : HealthMetrics
  timestamp : Nat
deriving DecidableEq, Repr

/-- Configuration values read from CONFIG that the modelled control flow
depends on. -/
structure SupCfg where
  maxRestartAttempts : Nat
  restartDelay : Nat
  startupGracePeriod : Nat
  healthCacheTTL : Nat
  shutdownTimeout : Nat
  maxLogLines : Nat
deriving DecidableEq, Repr

/-- Model of the global `processState`.  `hasProcess` is `process !== null`
with a pid; `childAlive` records whether the spawned OS process is still
live; `childObserved` records whether the current child object carries the
`on-exit` observer registered by `start`; `pendingRestart` records
a scheduled but not yet fired restart `setTimeout`. -/
structure SupState where
  hasProcess : Bool
  childAlive : Bool
  childObserved : Bool
  pendingRestart : Bool
  startTime : Nat
  lastUptime : Rat
  isHealthy : Bool
  restartCount : Nat
  logs : CircularBuffer
  healthCache : Option HealthCacheEntry
deriving DecidableEq, Repr

/-- The all-false, all-zero metrics value initialised at the top of
`checkBinaryHealth`. -/
def zeroMetrics : HealthMetrics :=
  ⟨0, false, false, false⟩

/-- Result of one `checkBinaryHealth` call: the returned metrics, the
updated state, and observation flags recording whether the call was served
from the cache, performed the `process.kill(pid, 0)` liveness probe, and
performed the log scan (uptime extraction plus error-keyword scan). -/
structure CheckResult where
  metrics : HealthMetrics
  state : SupState
  fromCache : Bool
  probed : Bool
  scanned : Bool
deriving DecidableEq, Repr

/-- Cache-miss path of `checkBinaryHealth` (hooks.ts lines 380-443).
`pidAlive` is the outcome of the `isProcessRunning` probe.  The
not-increasing branch after the grace period only logs a warning, so it
leaves both the metrics (whose `uptimeIncreasing` is already false) and
the state unchanged. -/
def checkFresh (s : SupState) (now : Nat) (pidAlive : Bool) : CheckResult :=
  if !s.hasProcess then
    ⟨zeroMetrics, s, false, false, false⟩
  else if !pidAlive then
    ⟨zeroMetrics, s, false, true, false⟩
  else
    let uptime := extractUptimeFromLogs s.logs
    let inc : Bool := decide (uptime > s.lastUptime)
    let s1 := if inc then { s with lastUptime := uptime } else s
    let hasErr := (s.logs.getRecent 50).any hasErrorKeyword
    let m : HealthMetrics := ⟨uptime, true, hasErr, inc⟩
    ⟨m, { s1 with healthCache := some ⟨m, now⟩ }, false, true, true⟩

/-- Model of `checkBinaryHealth` (hooks.ts lines 371-444): serve the cached
metrics while `now - timestamp < HEALTH_CACHE_TTL`, otherwise recompute. -/
def checkBinaryHealth (cfg : SupCfg) (s : SupState) (now : Nat) (pidAlive : Bool) : CheckResult :=
  match s.healthCache with
  | some e =>
    if now - e.timestamp < cfg.healthCacheTTL then
      ⟨e.metrics, s, true, false, false⟩
    else checkFresh s now pidAlive
  | none => checkFresh s now pidAlive

/-- Model of the `health` hook (hooks.ts lines 566-588): compute metrics,
derive the overall verdict, store it in `isHealthy`, return it. -/
def healthHook (cfg : SupCfg) (s : SupState) (now : Nat) (pidAlive : Bool) : Bool × SupState :=
  let r := checkBinaryHealth cfg s now pidAlive
  let verdict := r.metrics.isRunning && !r.metrics.hasErrors &&
    (r.metrics.uptimeIncreasing || decide (r.metrics.uptime > 0))
  (verdict, { r.state with isHealthy := verdict })

-- ===========================================================================
-- Event model of the asynchronous supervisor behaviour after `start`
-- (hooks.ts lines 331-369 and 484-564).
-- ===========================================================================

/-- Observable side effects of a step: signals sent to the child and child
spawns. -/
inductive Effect
  | sigterm
  | sigkill
  | spawnChild
deriving DecidableEq, Repr

/-- Asynchronous events delivered to the supervisor: the OS reporting the
child exit, the restart `setTimeout` firing, a line arriving on either
stream, and the host invoking the `health` hook. -/
inductive Event
  | childExit
  | restartTimer (now : Nat)
  | stdoutLine (l : Str)
  | stderrLine (l : Str)
  | healthCall (now : Nat) (pidAlive : Bool)
deriving DecidableEq, Repr

/-- The string prefixed to every stderr line before it is pushed
(hooks.ts line 360). -/
def errPrefixStr : Str := "ERROR: ".toList

/-- Model of the stderr line listener installed by `monitorProcessLogs`
(hooks.ts lines 358-368): push the prefixed line, then send SIGTERM when
the lowercased line contains both an invalid token and a secret token. -/
def stderrIngest (s : SupState) (l : Str) : SupState × List Effect :=
  let s1 := { s with logs := s.logs.push (errPrefixStr ++ l) }
  let low := toLowerStr l
  if containsSubstr "invalid".toList low && containsSubstr "secret".toList low then
    (s1, [Effect.sigterm])
  else (s1, [])

/-- One asynchronous step of the supervisor. -/
def step (cfg : SupCfg) (s : SupState) : Event → SupState × List Effect
  | Event.childExit =>
    if s.childAlive then
      -- The OS process dies; the registered exit observer body
      -- (hooks.ts lines 523-549) runs only on the child it was attached to.
      let dead := { s with childAlive := false }
      if s.childObserved then
        let s1 := { dead with isHealthy := false }
        if s1.restartCount < cfg.maxRestartAttempts then
          ({ s1 with restartCount := s1.restartCount + 1, pendingRestart := true }, [])
        else (s1, [])
      else (dead, [])
    else (s, [])
  | Event.restartTimer now =>
    if s.pendingRestart then
      -- Body of the restart setTimeout (hooks.ts lines 536-545): respawn,
      -- re-attach log monitoring (which clears the buffer), reset the
      -- start time, invalidate the cache.  No exit observer is registered
      -- on the respawned child.
      ({ s with
          pendingRestart := false
          hasProcess := true
          childAlive := true
          childObserved := false
          logs := s.logs.clear
          startTime := now
          healthCache := none }, [Effect.spawnChild])
    else (s, [])
  | Event.stdoutLine l => ({ s with logs := s.logs.push l }, [])
  | Event.stderrLine l => stderrIngest s l
  | Event.healthCall now pidAlive => ((healthHook cfg s now pidAlive).2, [])

/-- State right after a successful `start` call (hooks.ts lines 484-521):
state reset, child spawned with the exit observer and log monitoring
attached. -/
def startState (cfg : SupCfg) (now : Nat) : SupState :=
  { hasProcess := true
    childAlive := true
    childObserved := true
    pendingRestart := false
    startTime := now
    lastUptime := 0
    isHealthy := false
    restartCount := 0
    logs := CircularBuffer.mkEmpty cfg.maxLogLines
    healthCache := none }

/-- Run a sequence of asynchronous events. -/
def run (cfg : SupCfg) (s : SupState) (es : List Event) : SupState :=
  es.foldl (fun t e => (step cfg t e).1) s

-- ===========================================================================
-- Model of the `stop` hook (hooks.ts lines 590-643).
-- ===========================================================================

/-- Number of liveness polls the shutdown loop performs: one poll every
100 ms while elapsed time stays below SHUTDOWN_TIMEOUT. -/
def numPolls (timeout : Nat) : Nat := (timeout + 99) / 100

/-- Model of the shutdown polling loop: starting at poll index `k` with the
given fuel, return the final value of `shutdownComplete` (true as soon as
one probe finds the child gone). -/
def pollLoop (alive : Nat → Bool) : Nat → Nat → Bool
  | _, 0 => false
  | k, fuel + 1 => if alive k then pollLoop alive (k + 1) fuel else true

/-- Outcome of a `stop` call: signals sent, final state, and whether the
hook re-threw an error. -/
structure StopOutcome where
  effects : List Effect
  state : SupState
  threw : Bool
deriving DecidableEq, Repr

/-- Model of the `stop` hook.  `alive k` is the `isProcessRunning` result
at the k-th 100 ms poll; `unlinkFails` is whether deleting the wrapper
script throws (the source catches that error and only logs a warning, so
it never escapes the hook). -/
def stopHook (cfg : SupCfg) (s : SupState) (alive : Nat → Bool) (unlinkFails : Bool) : StopOutcome :=
  if !s.hasProcess then
    -- Early return: nothing to stop, state untouched.
    ⟨[], s, false⟩
  else
    let shutdownComplete := pollLoop alive 0 (numPolls cfg.shutdownTimeout)
    let effs := [Effect.sigterm] ++ (if !shutdownComplete then [Effect.sigkill] else [])
    -- Wrapper cleanup failure (`unlinkFails`) is swallowed by the inner
    -- try/catch; the state reset below runs on every path.
    ⟨effs,
      { s with
          hasProcess := false
          childAlive := false
          isHealthy := false
          logs := s.logs.clear
          healthCache := none },
      false⟩

-- ===========================================================================
-- List helper lemmas used by the CircularBuffer correctness proof.
-- ===========================================================================

theorem getD_set_eq {α : Type} (l : List α) (i : Nat) (v d : α)
    (h : i < l.length) : (l.set i v).getD i d = v := by
  induction l generalizing i with
  | nil => simp at h
  | cons a t ih =>
    cases i with
    | zero => rfl
    | succ j => simpa [List.set, List.getD] using ih j (by simpa using h)

theorem getD_set_ne {α : Type} (l : List α) (i j : Nat) (v d : α)
    (h : i ≠ j) : (l.set i v).getD j d = l.getD j d := by
  induction l generalizing i j with
  | nil => rfl
  | cons a t ih =>
    cases i with
    | zero =>
      cases j with
      | zero => exact absurd rfl h
      | succ j2 => rfl
    | succ i2 =>
      cases j with
      | zero => rfl
      | succ j2 =>
        simpa [List.set, List.getD] using ih i2 j2 (fun hc => h (by simp [hc]))

theorem getD_append_left {α : Type} (l l2 : List α) (i : Nat) (d : α)
    (h : i < l.length) : (l ++ l2).getD i d = l.getD i d := by
  induction l generalizing i with
  | nil => simp at h
  | cons a t ih =>
    cases i with
    | zero => rfl
    | succ j => simpa [List.getD] using ih j (by simpa using h)

theorem getD_append_length {α : Type} (l : List α) (x d : α) :
    (l ++ [x]).getD l.length d = x := by
  induction l with
  | nil => rfl
  | cons a t ih => exact ih

theorem map_getD_range {α : Type} (l : List α) (d : α) :
    (List.range l.length).map (fun i => l.getD i d) = l := by
  induction l with
  | nil => rfl
  | cons a t ih =>
    rw [List.length_cons, List.range_succ_eq_map, List.map_cons, List.map_map]
    have hfun : ((fun i => (a :: t).getD i d) ∘ Nat.succ) = fun i => t.getD i d :=
      funext fun i => rfl
    rw [hfun, ih]
    rfl

theorem map_getD_range_drop {α : Type} (k : Nat) (l : List α) (d : α) :
    (List.range (l.length - k)).map (fun i => l.getD (k + i) d) = l.drop k := by
  induction k generalizing l with
  | zero => simpa using map_getD_range l d
  | succ k2 ih =>
    cases l with
    | nil => simp
    | cons a t =>
      have h1 : (a :: t).length - (k2 + 1) = t.length - k2 := by
        simp [Nat.succ_sub_succ]
      rw [h1, List.drop_succ_cons]
      have h2 : ∀ i : Nat, (a :: t).getD (k2 + 1 + i) d = t.getD (k2 + i) d := by
        intro i
        have : k2 + 1 + i = (k2 + i) + 1 := by omega
        rw [this]
        rfl
      simp only [h2]
      exact ih t

theorem filterMap_eq_map_of_some {α β : Type} (l : List α) (f : α → Option β) (g : α → β)
    (h : ∀ x ∈ l, f x = some (g x)) : l.filterMap f = l.map g := by
  induction l with
  | nil => rfl
  | cons a t ih =>
    rw [List.filterMap_cons, h a (by simp), List.map_cons,
      ih (fun x hx => h x (by simp [hx]))]

theorem mod_shift_ne {N p c : Nat} (hp : p < N) (hc1 : 0 < c) (hc2 : c < N) :
    (p + c) % N ≠ p := by
  rcases Nat.lt_or_ge (p + c) N with hlt | hge
  · rw [Nat.mod_eq_of_lt hlt]
    omega
  · have h2 : p + c - N < N := by omega
    have : (p + c) % N = p + c - N := by
      rw [Nat.mod_eq_sub_mod hge, Nat.mod_eq_of_lt h2]
    rw [this]
    omega

-- ===========================================================================
-- CircularBuffer correctness: the buffer contents after a sequence of
-- pushes are the most recent `capacity` lines, in push order.
-- ===========================================================================

/-- Invariant tying a buffer state to the list `ps` of lines pushed into an
initially empty buffer of capacity `N`. -/
def BufInv (N : Nat) (ps : List Str) (b : CircularBuffer) : Prop :=
  b.capacity = N ∧ b.buffer.length = N ∧ b.head = ps.length % N ∧
  b.size = min ps.length N ∧
  ∀ i, i < b.size →
    b.buffer.getD (((if b.size = N then b.head else 0) + i) % N) none =
      some (ps.getD (ps.length - b.size + i) [])

theorem bufInv_empty {N : Nat} (hN : 0 < N) : BufInv N [] (CircularBuffer.mkEmpty N) := by
  refine ⟨rfl, by simp [CircularBuffer.mkEmpty], by simp [CircularBuffer.mkEmpty], by
    simp [CircularBuffer.mkEmpty], ?_⟩
  intro i hi
  simp [CircularBuffer.mkEmpty] at hi

theorem bufInv_push {N : Nat} {ps : List Str} {b : CircularBuffer} (hN : 0 < N)
    (h : BufInv N ps b) (x : Str) : BufInv N (ps ++ [x]) (b.push x) := by
  obtain ⟨hcap, hlen, hhead, hsize, hget⟩ := h
  rcases Nat.lt_or_ge ps.length N with hlt | hge
  · -- Fewer pushes than capacity: the write lands at index ps.length.
    have hhead2 : b.head = ps.length := by rw [hhead, Nat.mod_eq_of_lt hlt]
    have hsize2 : b.size = ps.length := by rw [hsize]; omega
    refine ⟨hcap, by simp [CircularBuffer.push, hlen], ?_, ?_, ?_⟩
    · show (b.head + 1) % b.capacity = (ps ++ [x]).length % N
      rw [hcap, hhead, Nat.mod_add_mod]
      simp only [List.length_append, List.length_singleton]
    · show min (b.size + 1) b.capacity = min (ps ++ [x]).length N
      simp only [List.length_append, List.length_singleton]
      omega
    · intro i hi
      have hsize3 : (b.push x).size = ps.length + 1 := by
        show min (b.size + 1) b.capacity = ps.length + 1
        omega
      have hi2 : i < ps.length + 1 := by rwa [hsize3] at hi
      have hstart : (if (b.push x).size = N then (b.push x).head else 0) = 0 := by
        rcases Nat.lt_or_ge (ps.length + 1) N with hc | hc
        · rw [if_neg]; rw [hsize3]; omega
        · have hEq : ps.length + 1 = N := by omega
          rw [if_pos (by rw [hsize3, hEq])]
          show (b.head + 1) % b.capacity = 0
          rw [hcap, hhead2, hEq, Nat.mod_self]
      rw [hstart]
      have hiN : i < N := by omega
      have hmod : (0 + i) % N = i := by
        rw [Nat.zero_add, Nat.mod_eq_of_lt hiN]
      rw [hmod]
      have hidxlen : (ps ++ [x]).length - (b.push x).size + i = i := by
        simp [hsize3]
      rw [hidxlen]
      rcases Nat.lt_or_ge i ps.length with hcase | hcase
      · -- Old entries are untouched by the write at ps.length.
        have hne : b.head ≠ i := by rw [hhead2]; omega
        have hkeep : (b.push x).buffer.getD i none = b.buffer.getD i none := by
          simp only [CircularBuffer.push]
          exact getD_set_ne b.buffer b.head i (some x) none hne
        rw [hkeep]
        have hstart0 : (if b.size = N then b.head else 0) = 0 := by
          rw [if_neg]; rw [hsize2]; omega
        have hold := hget i (by rw [hsize2]; exact hcase)
        rw [hstart0] at hold
        rw [Nat.zero_add, Nat.mod_eq_of_lt (by omega : i < N)] at hold
        rw [hold]
        have harith : ps.length - b.size + i = i := by rw [hsize2]; omega
        rw [harith]
        exact congrArg some (getD_append_left ps [x] i [] hcase).symm
      · -- The newly written slot.
        have hieq : i = ps.length := by omega
        rw [hieq]
        have hbuf : (b.push x).buffer.getD ps.length none = some x := by
          simp only [CircularBuffer.push]
          rw [hhead2]
          exact getD_set_eq b.buffer ps.length (some x) none (by rw [hlen]; omega)
        rw [hbuf]
        exact congrArg some (getD_append_length ps x []).symm
  · -- Buffer already full: the write overwrites the oldest slot.
    have hsizeN : b.size = N := by rw [hsize]; omega
    refine ⟨hcap, by simp [CircularBuffer.push, hlen], ?_, ?_, ?_⟩
    · show (b.head + 1) % b.capacity = (ps ++ [x]).length % N
      rw [hcap, hhead, Nat.mod_add_mod]
      simp only [List.length_append, List.length_singleton]
    · show min (b.size + 1) b.capacity = min (ps ++ [x]).length N
      simp only [List.length_append, List.length_singleton]
      omega
    · intro i hi
      have hsize3 : (b.push x).size = N := by
        show min (b.size + 1) b.capacity = N
        omega
      have hiN : i < N := by rwa [hsize3] at hi
      have hhead3 : (b.push x).head = (ps.length + 1) % N := by
        simp only [CircularBuffer.push, hcap, hhead]
        rw [Nat.mod_add_mod]
      have hstart : (if (b.push x).size = N then (b.push x).head else 0) =
          (ps.length + 1) % N := by rw [if_pos hsize3, hhead3]
      rw [hstart]
      have hidx : ((ps.length + 1) % N + i) % N = (ps.length + 1 + i) % N :=
        Nat.mod_add_mod (ps.length + 1) N i
      rw [hidx]
      have htarget : (ps ++ [x]).length - (b.push x).size + i = ps.length + 1 - N + i := by
        simp [hsize3]
      rw [htarget]
      rcases Nat.lt_or_ge i (N - 1) with hcase | hcase
      · -- Untouched slots shift their logical index by one.
        have hwrite : b.head = ps.length % N := hhead
        have hne : (ps.length + 1 + i) % N ≠ ps.length % N := by
          have h1 : ps.length + 1 + i = ps.length + (1 + i) := by omega
          rw [h1, Nat.add_mod ps.length (1 + i) N,
            Nat.mod_eq_of_lt (show 1 + i < N by omega)]
          exact mod_shift_ne (Nat.mod_lt ps.length hN) (by omega) (by omega)
        have hbuf : (b.push x).buffer.getD ((ps.length + 1 + i) % N) none =
            b.buffer.getD ((ps.length + 1 + i) % N) none := by
          simp only [CircularBuffer.push]
          rw [hwrite]
          exact getD_set_ne b.buffer (ps.length % N) ((ps.length + 1 + i) % N)
            (some x) none (fun hc => hne hc.symm)
        rw [hbuf]
        have hold := hget (i + 1) (by rw [hsizeN]; omega)
        rw [if_pos hsizeN, hhead] at hold
        rw [Nat.mod_add_mod] at hold
        have harith : ps.length + (i + 1) = ps.length + 1 + i := by omega
        rw [harith] at hold
        rw [hold]
        have harith2 : ps.length - b.size + (i + 1) = ps.length + 1 - N + i := by
          rw [hsizeN]; omega
        rw [harith2]
        exact congrArg some (getD_append_left ps [x] (ps.length + 1 - N + i) []
          (by omega)).symm
      · -- The freshly written slot is the newest line.
        have hieq : i = N - 1 := by omega
        subst hieq
        have hmodeq : (ps.length + 1 + (N - 1)) % N = ps.length % N := by
          have : ps.length + 1 + (N - 1) = ps.length + N := by omega
          rw [this, Nat.add_mod_right]
        rw [hmodeq]
        have hbuf : (b.push x).buffer.getD (ps.length % N) none = some x := by
          simp only [CircularBuffer.push]
          rw [hhead]
          exact getD_set_eq b.buffer (ps.length % N) (some x) none
            (by rw [hlen]; exact Nat.mod_lt ps.length hN)
        rw [hbuf]
        have harith : ps.length + 1 - N + (N - 1) = ps.length := by omega
        rw [harith]
        exact congrArg some (getD_append_length ps x []).symm

theorem bufInv_pushAll {N : Nat} (hN : 0 < N) (ps : List Str) :
    BufInv N ps ((CircularBuffer.mkEmpty N).pushAll ps) := by
  induction ps using List.reverseRecOn with
  | nil => exact bufInv_empty hN
  | append_singleton l x ih =>
    have : (CircularBuffer.mkEmpty N).pushAll (l ++ [x]) =
        ((CircularBuffer.mkEmpty N).pushAll l).push x := by
      simp [CircularBuffer.pushAll]
    rw [this]
    exact bufInv_push hN ih x

theorem getAll_of_bufInv {N : Nat} {ps : List Str} {b : CircularBuffer}
    (hN : 0 < N) (h : BufInv N ps b) : b.getAll = ps.drop (ps.length - N) := by
  obtain ⟨hcap, hlen, hhead, hsize, hget⟩ := h
  unfold CircularBuffer.getAll
  have hstep : (List.range b.size).filterMap
      (fun i => b.buffer.getD (((if b.size = b.capacity then b.head else 0) + i) % b.capacity) none) =
      (List.range b.size).map (fun i => ps.getD (ps.length - b.size + i) []) := by
    apply filterMap_eq_map_of_some
    intro i hi
    rw [List.mem_range] at hi
    have := hget i hi
    rw [hcap]
    exact this
  rw [hstep]
  have hdropk : ps.length - b.size = ps.length - N := by
    rw [hsize]; omega
  have hrange : b.size = ps.length - (ps.length - N) := by
    rw [hsize]; omega
  rw [hdropk, hrange]
  exact map_getD_range_drop (ps.length - N) ps []

theorem size_le_of_bufInv {N : Nat} {ps : List Str} {b : CircularBuffer}
    (h : BufInv N ps b) : b.size ≤ N := by
  obtain ⟨-, -, -, hsize, -⟩ := h
  omega

-- ===========================================================================
-- Substring and scan characterisation lemmas.
-- ===========================================================================

theorem isPrefixOf_iff_take (pat l : Str) :
    pat.isPrefixOf l = true ↔ l.take pat.length = pat := by
  induction pat generalizing l with
  | nil => simp [List.isPrefixOf]
  | cons p pt ih =>
    cases l with
    | nil => simp [List.isPrefixOf]
    | cons a t =>
      simp only [List.isPrefixOf, Bool.and_eq_true, beq_iff_eq, List.length_cons,
        List.take_succ_cons, List.cons.injEq, ih]
      constructor
      · rintro ⟨h1, h2⟩; exact ⟨h1.symm, h2⟩
      · rintro ⟨h1, h2⟩; exact ⟨h1.symm, h2⟩

theorem containsSubstr_iff (pat hay : Str) :
    containsSubstr pat hay = true ↔ ∃ i, (hay.drop i).take pat.length = pat := by
  induction hay with
  | nil =>
    simp only [containsSubstr, List.isEmpty_iff, List.drop_nil, List.take_nil]
    constructor
    · intro h; exact ⟨0, h.symm⟩
    · rintro ⟨i, hi⟩; exact hi.symm
  | cons c t ih =>
    simp only [containsSubstr, Bool.or_eq_true, ih, isPrefixOf_iff_take]
    constructor
    · rintro (h | ⟨i, hi⟩)
      · exact ⟨0, h⟩
      · exact ⟨i + 1, hi⟩
    · rintro ⟨i, hi⟩
      cases i with
      | zero => exact Or.inl hi
      | succ j => exact Or.inr ⟨j, hi⟩

theorem containsSubstr_append_self (pat rest : Str) :
    containsSubstr pat (pat ++ rest) = true := by
  rw [containsSubstr_iff]
  refine ⟨0, ?_⟩
  rw [List.drop_zero, List.take_left]

theorem extractLoop_append (lines : List Str) (x : Str) (n : Nat) (h : n ≤ lines.length) :
    extractLoop (lines ++ [x]) n = extractLoop lines n := by
  induction n with
  | zero => rfl
  | succ m ih =>
    have hm : m < lines.length := by omega
    show (match lineUptime ((lines ++ [x]).getD m []) with
          | some v => v
          | none => extractLoop (lines ++ [x]) m) =
        (match lineUptime (lines.getD m []) with
          | some v => v
          | none => extractLoop lines m)
    rw [getD_append_left lines [x] m [] hm]
    cases hu : lineUptime (lines.getD m []) with
    | some v => rfl
    | none => exact ih (by omega)

/-- Specification-side description of the newest-first scan: fold the
reversed line list with `findSome?` and default to 0. -/
def uptimeScanSpec (lines : List Str) : Rat :=
  (lines.reverse.findSome? lineUptime).getD 0

theorem extractLoop_eq_scanSpec (lines : List Str) :
    extractLoop lines lines.length = uptimeScanSpec lines := by
  induction lines using List.reverseRecOn with
  | nil => rfl
  | append_singleton l x ih =>
    have hlen : (l ++ [x]).length = l.length + 1 := by simp
    rw [hlen]
    unfold uptimeScanSpec
    rw [List.reverse_append, List.reverse_singleton, List.singleton_append,
      List.findSome?_cons]
    unfold extractLoop
    rw [getD_append_length l x []]
    cases hu : lineUptime x with
    | some v => rfl
    | none =>
      show extractLoop (l ++ [x]) l.length = _
      rw [extractLoop_append l x l.length (le_refl _)]
      exact ih

-- ===========================================================================
-- Control-field preservation of the health evaluator, and the restart
-- invariant behind claims C1/C2.
-- ===========================================================================

theorem checkBH_hit (cfg : SupCfg) (s : SupState) (now : Nat) (a : Bool)
    (e : HealthCacheEntry) (hc : s.healthCache = some e)
    (ht : now - e.timestamp < cfg.healthCacheTTL) :
    checkBinaryHealth cfg s now a = ⟨e.metrics, s, true, false, false⟩ := by
  unfold checkBinaryHealth
  rw [hc]
  dsimp only
  rw [if_pos ht]

theorem checkBH_none (cfg : SupCfg) (s : SupState) (now : Nat) (a : Bool)
    (hc : s.healthCache = none) :
    checkBinaryHealth cfg s now a = checkFresh s now a := by
  unfold checkBinaryHealth
  rw [hc]

theorem checkBH_stale (cfg : SupCfg) (s : SupState) (now : Nat) (a : Bool)
    (e : HealthCacheEntry) (hc : s.healthCache = some e)
    (ht : ¬ (now - e.timestamp < cfg.healthCacheTTL)) :
    checkBinaryHealth cfg s now a = checkFresh s now a := by
  unfold checkBinaryHealth
  rw [hc]
  dsimp only
  rw [if_neg ht]

theorem checkFresh_preserves (s : SupState) (now : Nat) (a : Bool) :
    (checkFresh s now a).state.hasProcess = s.hasProcess ∧
    (checkFresh s now a).state.childAlive = s.childAlive ∧
    (checkFresh s now a).state.childObserved = s.childObserved ∧
    (checkFresh s now a).state.pendingRestart = s.pendingRestart ∧
    (checkFresh s now a).state.restartCount = s.restartCount := by
  unfold checkFresh
  split
  · exact ⟨rfl, rfl, rfl, rfl, rfl⟩
  · split
    · exact ⟨rfl, rfl, rfl, rfl, rfl⟩
    · simp only []
      split <;> exact ⟨rfl, rfl, rfl, rfl, rfl⟩

theorem healthHook_preserves (cfg : SupCfg) (s : SupState) (now : Nat) (a : Bool) :
    (healthHook cfg s now a).2.hasProcess = s.hasProcess ∧
    (healthHook cfg s now a).2.childAlive = s.childAlive ∧
    (healthHook cfg s now a).2.childObserved = s.childObserved ∧
    (healthHook cfg s now a).2.pendingRestart = s.pendingRestart ∧
    (healthHook cfg s now a).2.restartCount = s.restartCount := by
  obtain ⟨p1, p2, p3, p4, p5⟩ := checkFresh_preserves s now a
  have f1 : (healthHook cfg s now a).2.hasProcess =
      (checkBinaryHealth cfg s now a).state.hasProcess := rfl
  have f2 : (healthHook cfg s now a).2.childAlive =
      (checkBinaryHealth cfg s now a).state.childAlive := rfl
  have f3 : (healthHook cfg s now a).2.childObserved =
      (checkBinaryHealth cfg s now a).state.childObserved := rfl
  have f4 : (healthHook cfg s now a).2.pendingRestart =
      (checkBinaryHealth cfg s now a).state.pendingRestart := rfl
  have f5 : (healthHook cfg s now a).2.restartCount =
      (checkBinaryHealth cfg s now a).state.restartCount := rfl
  cases hc : s.healthCache with
  | none =>
    rw [f1, f2, f3, f4, f5, checkBH_none cfg s now a hc]
    exact ⟨p1, p2, p3, p4, p5⟩
  | some e =>
    by_cases ht : now - e.timestamp < cfg.healthCacheTTL
    · rw [f1, f2, f3, f4, f5, checkBH_hit cfg s now a e hc ht]
      exact ⟨rfl, rfl, rfl, rfl, rfl⟩
    · rw [f1, f2, f3, f4, f5, checkBH_stale cfg s now a e hc ht]
      exact ⟨p1, p2, p3, p4, p5⟩

/-- Invariant behind the one-restart behaviour: the counter never exceeds
one, and while the child carrying the exit observer is still alive the
counter is zero. -/
def RestartInv (s : SupState) : Prop :=
  s.restartCount ≤ 1 ∧ (s.childAlive = true → s.childObserved = true → s.restartCount = 0)

theorem restartInv_step (cfg : SupCfg) (s : SupState) (e : Event) (h : RestartInv s) :
    RestartInv (step cfg s e).1 := by
  obtain ⟨h1, h2⟩ := h
  cases e with
  | childExit =>
    cases halive : s.childAlive with
    | false =>
      have hs : (step cfg s Event.childExit).1 = s := by simp [step, halive]
      rw [hs]
      exact ⟨h1, h2⟩
    | true =>
      cases hobs : s.childObserved with
      | false =>
        have hs : (step cfg s Event.childExit).1 = { s with childAlive := false } := by
          simp [step, halive, hobs]
        rw [hs]
        exact ⟨h1, fun ha _ => by simp at ha⟩
      | true =>
        have hc0 : s.restartCount = 0 := h2 halive hobs
        by_cases hlt : s.restartCount < cfg.maxRestartAttempts
        · have hs : (step cfg s Event.childExit).1 =
              { s with childAlive := false, isHealthy := false,
                       restartCount := s.restartCount + 1, pendingRestart := true } := by
            simp [step, halive, hobs, hlt]
          rw [hs]
          exact ⟨by simp [hc0], fun ha _ => by simp at ha⟩
        · have hs : (step cfg s Event.childExit).1 =
              { s with childAlive := false, isHealthy := false } := by
            simp [step, halive, hobs, hlt]
          rw [hs]
          exact ⟨h1, fun ha _ => by simp at ha⟩
  | restartTimer now =>
    cases hp : s.pendingRestart with
    | false =>
      have hs : (step cfg s (Event.restartTimer now)).1 = s := by simp [step, hp]
      rw [hs]
      exact ⟨h1, h2⟩
    | true =>
      have hs : (step cfg s (Event.restartTimer now)).1 =
          { s with pendingRestart := false, hasProcess := true, childAlive := true,
                   childObserved := false, logs := s.logs.clear, startTime := now,
                   healthCache := none } := by
        simp [step, hp]
      rw [hs]
      exact ⟨h1, fun _ hb => by simp at hb⟩
  | stdoutLine l =>
    exact ⟨h1, h2⟩
  | stderrLine l =>
    have hs : (step cfg s (Event.stderrLine l)).1 =
        { s with logs := s.logs.push (errPrefixStr ++ l) } := by
      show (stderrIngest s l).1 = _
      unfold stderrIngest
      dsimp only
      split <;> rfl
    rw [hs]
    exact ⟨h1, h2⟩
  | healthCall now a =>
    obtain ⟨hA, hB, hC, hD, hE⟩ := healthHook_preserves cfg s now a
    refine ⟨?_, ?_⟩
    · show (healthHook cfg s now a).2.restartCount ≤ 1
      rw [hE]; exact h1
    · intro ha hb
      have ha2 : s.childAlive = true := by
        rw [← hB]; exact ha
      have hb2 : s.childObserved = true := by
        rw [← hC]; exact hb
      show (healthHook cfg s now a).2.restartCount = 0
      rw [hE]
      exact h2 ha2 hb2

theorem restartInv_run (cfg : SupCfg) (s : SupState) (es : List Event) (h : RestartInv s) :
    RestartInv (run cfg s es) := by
  induction es generalizing s with
  | nil => exact h
  | cons e t ih => exact ih _ (restartInv_step cfg s e h)

-- ===========================================================================
-- Derived buffer facts and further helper lemmas for the claim theorems.
-- ===========================================================================

theorem getAll_pushAll (N : Nat) (hN : 0 < N) (ps : List Str) :
    ((CircularBuffer.mkEmpty N).pushAll ps).getAll = ps.drop (ps.length - N) :=
  getAll_of_bufInv hN (bufInv_pushAll hN ps)

theorem size_pushAll_le (N : Nat) (hN : 0 < N) (ps : List Str) :
    ((CircularBuffer.mkEmpty N).pushAll ps).size ≤ N :=
  size_le_of_bufInv (bufInv_pushAll hN ps)

theorem getRecent_pushAll (N : Nat) (hN : 0 < N) (ps : List Str) (k : Nat)
    (hk1 : 1 ≤ k) (hk2 : k ≤ N) :
    ((CircularBuffer.mkEmpty N).pushAll ps).getRecent k = ps.drop (ps.length - k) := by
  unfold CircularBuffer.getRecent
  dsimp only
  rw [getAll_pushAll N hN ps, if_neg (show ¬ k = 0 by omega)]
  rw [List.length_drop, List.drop_drop]
  congr 1
  omega

theorem findSome?_none_of_all {α β : Type} (l : List α) (f : α → Option β)
    (h : ∀ x ∈ l, f x = none) : l.findSome? f = none := by
  induction l with
  | nil => rfl
  | cons a t ih =>
    rw [List.findSome?_cons, h a (by simp)]
    exact ih fun x hx => h x (by simp [hx])

theorem pollLoop_false_iff (alive : Nat → Bool) : ∀ (n k : Nat),
    pollLoop alive k n = false ↔ ∀ j, j < n → alive (k + j) = true := by
  intro n
  induction n with
  | zero =>
    intro k
    constructor
    · intro _ j hj; exact absurd hj (Nat.not_lt_zero j)
    · intro _; rfl
  | succ m ih =>
    intro k
    show (if alive k then pollLoop alive (k + 1) m else true) = false ↔ _
    cases ha : alive k with
    | true =>
      show pollLoop alive (k + 1) m = false ↔ _
      rw [ih (k + 1)]
      constructor
      · intro hall j hj
        cases j with
        | zero => simpa using ha
        | succ i =>
          have h2 := hall i (by omega)
          have he : k + 1 + i = k + (i + 1) := by omega
          rwa [he] at h2
      · intro hall j hj
        have h2 := hall (j + 1) (by omega)
        have he : k + (j + 1) = k + 1 + j := by omega
        rwa [he] at h2
    | false =>
      show (true : Bool) = false ↔ _
      constructor
      · intro h; exact absurd h (by simp)
      · intro hall
        have h0 := hall 0 (by omega)
        rw [Nat.add_zero, ha] at h0
        exact absurd h0 (by simp)

theorem pollLoop_zero_false_iff (alive : Nat → Bool) (n : Nat) :
    pollLoop alive 0 n = false ↔ ∀ j, j < n → alive j = true := by
  rw [pollLoop_false_iff]
  constructor
  · intro h j hj
    have h2 := h j hj
    rwa [Nat.zero_add] at h2
  · intro h j hj
    rw [Nat.zero_add]
    exact h j hj

theorem checkFresh_fromCache (s : SupState) (now : Nat) (a : Bool) :
    (checkFresh s now a).fromCache = false := by
  unfold checkFresh
  split
  · rfl
  · split
    · rfl
    · rfl

theorem checkFresh_live_flags (s : SupState) (now : Nat) (hp : s.hasProcess = true) :
    (checkFresh s now true).probed = true ∧ (checkFresh s now true).scanned = true ∧
    (checkFresh s now true).state.healthCache =
      some ⟨(checkFresh s now true).metrics, now⟩ := by
  unfold checkFresh
  rw [hp]
  split
  · next h => simp at h
  · exact ⟨rfl, rfl, rfl⟩

theorem checkFresh_live_metrics (s : SupState) (now : Nat) (hp : s.hasProcess = true) :
    (checkFresh s now true).metrics =
      ⟨extractUptimeFromLogs s.logs, true,
        (s.logs.getRecent 50).any hasErrorKeyword,
        decide (extractUptimeFromLogs s.logs > s.lastUptime)⟩ := by
  unfold checkFresh
  rw [hp]
  split
  · next h => simp at h
  · rfl

theorem hasErrorKeyword_errLine (l : Str) :
    hasErrorKeyword (errPrefixStr ++ l) = true := by
  unfold hasErrorKeyword
  apply List.any_eq_true.mpr
  refine ⟨"error".toList, by simp [ERROR_KEYWORDS], ?_⟩
  have hlow : toLowerStr (errPrefixStr ++ l) = "error: ".toList ++ toLowerStr l := by
    unfold toLowerStr
    rw [List.map_append]
    have hpre : List.map Char.toLower errPrefixStr = "error: ".toList := by decide
    rw [hpre]
  rw [hlow]
  have hsplit : ("error: ".toList : Str) = "error".toList ++ ": ".toList := by decide
  rw [hsplit, List.append_assoc]
  exact containsSubstr_append_self _ _

-- ===========================================================================
-- Concrete inputs shared by counterexamples and witnesses.
-- ===========================================================================

/-- Concrete configuration: the default CONFIG values of hooks.ts
(MAX_RESTART_ATTEMPTS 3, RESTART_DELAY 2000, STARTUP_GRACE_PERIOD 5000,
HEALTH_CACHE_TTL 500, SHUTDOWN_TIMEOUT 10000) with a small log buffer. -/
def cfgEx : SupCfg := ⟨3, 2000, 5000, 500, 10000, 4⟩

/-- Concrete supervisor state whose buffer holds one stderr-prefixed line. -/
def sErrEx : SupState :=
  { startState cfgEx 0 with
    logs := (CircularBuffer.mkEmpty 4).push (errPrefixStr ++ "boom".toList) }

/-- Concrete supervisor state with a restart timer pending. -/
def sPendEx : SupState := { startState cfgEx 0 with pendingRestart := true }

-- ===========================================================================
-- Claim theorems.
-- ===========================================================================

/-- Claim C1: the spec says that after exactly maxRestartAttempts
consecutive unexpected child exits the restart counter equals
maxRestartAttempts and only then does spawning stop.  Evaluating the model
at the failing input (MAX_RESTART_ATTEMPTS = 3; the child exits, the
restart timer respawns it, and the respawned child exits again) shows the
code stops after a single restart: the counter is stuck at 1, no restart
is pending, and the second exit triggers no effect at all, because the
exit observer is registered only on the first child.  The code also never
reaches its own terminal log branch for exhausted attempts. -/
theorem c1_restart_ceiling_failing_input :
    (run cfgEx (startState cfgEx 0)
      [Event.childExit, Event.restartTimer 100, Event.childExit]).restartCount = 1 ∧
    (run cfgEx (startState cfgEx 0)
      [Event.childExit, Event.restartTimer 100, Event.childExit]).pendingRestart = false ∧
    (step cfgEx (run cfgEx (startState cfgEx 0) [Event.childExit, Event.restartTimer 100])
      Event.childExit).2 = [] ∧
    cfgEx.maxRestartAttempts = 3 := by
  with_unfolding_all decide

/-- Claim C2: the exit observer is attached only to the first child spawned
by start, and the child respawned by the restart timer gets log monitoring
but no observer; consequently, for every event sequence after one start,
the restart counter never exceeds 1, and every respawn produced by the
timer carries no exit observer. -/
theorem c2_at_most_one_restart_per_start (cfg : SupCfg) (now : Nat) (es : List Event) :
    (run cfg (startState cfg now) es).restartCount ≤ 1 ∧
    (∀ (s : SupState) (t : Nat), s.pendingRestart = true →
      ((step cfg s (Event.restartTimer t)).1.childObserved = false ∧
       (step cfg s (Event.restartTimer t)).2 = [Effect.spawnChild])) := by
  constructor
  · have h0 : RestartInv (startState cfg now) := by
      refine ⟨by simp [startState], ?_⟩
      intro _ _
      simp [startState]
    exact (restartInv_run cfg _ es h0).1
  · intro s t hpend
    have hs : step cfg s (Event.restartTimer t) =
        ({ s with pendingRestart := false, hasProcess := true, childAlive := true,
                  childObserved := false, logs := s.logs.clear, startTime := t,
                  healthCache := none }, [Effect.spawnChild]) := by
      simp [step, hpend]
    rw [hs]
    exact ⟨rfl, rfl⟩

/-- Claim C2 witness: the invariant evaluated on one concrete run, and the
respawn of a concrete pending state carrying no exit observer. -/
theorem c2_at_most_one_restart_per_start_witness :
    (run cfgEx (startState cfgEx 0) [Event.childExit, Event.restartTimer 5]).restartCount ≤ 1 ∧
    (step cfgEx sPendEx (Event.restartTimer 5)).1.childObserved = false :=
  ⟨(c2_at_most_one_restart_per_start cfgEx 0 [Event.childExit, Event.restartTimer 5]).1,
   ((c2_at_most_one_restart_per_start cfgEx 0 []).2 sPendEx 5 rfl).1⟩

/-- Claim C3 counterexample: with a process handle present but the child
dead, the evaluator returns early without storing a snapshot, so a second
call in the same TTL window performs the liveness probe again (the claim
says only the first call probes).  Both calls are at time 0, well within
the 500 ms TTL, with no intervening respawn. -/
theorem c3_cache_counterexample :
    (checkBinaryHealth cfgEx (startState cfgEx 0) 0 false).probed = true ∧
    (checkBinaryHealth cfgEx
      (checkBinaryHealth cfgEx (startState cfgEx 0) 0 false).state 0 false).probed = true ∧
    (checkBinaryHealth cfgEx
      (checkBinaryHealth cfgEx (startState cfgEx 0) 0 false).state 0 false).metrics =
      (checkBinaryHealth cfgEx (startState cfgEx 0) 0 false).metrics := by
  with_unfolding_all decide

/-- Claim C3 (amended): when the first evaluation finds the child present
and its liveness probe succeeds, it scans and stores a snapshot, and any
second evaluation within cacheTTL returns the identical metrics with no
probe and no scan and no state change; moreover a snapshot is served only
while now minus capturedAt is below cacheTTL, never when it is older. -/
theorem c3_cache_amended (cfg : SupCfg) (s : SupState) (now1 now2 : Nat) (a2 : Bool)
    (hp : s.hasProcess = true) (hc : s.healthCache = none)
    (httl : now2 - now1 < cfg.healthCacheTTL) :
    (checkBinaryHealth cfg s now1 true).probed = true ∧
    (checkBinaryHealth cfg s now1 true).scanned = true ∧
    (checkBinaryHealth cfg (checkBinaryHealth cfg s now1 true).state now2 a2).fromCache = true ∧
    (checkBinaryHealth cfg (checkBinaryHealth cfg s now1 true).state now2 a2).metrics =
      (checkBinaryHealth cfg s now1 true).metrics ∧
    (checkBinaryHealth cfg (checkBinaryHealth cfg s now1 true).state now2 a2).probed = false ∧
    (checkBinaryHealth cfg (checkBinaryHealth cfg s now1 true).state now2 a2).scanned = false ∧
    (checkBinaryHealth cfg (checkBinaryHealth cfg s now1 true).state now2 a2).state =
      (checkBinaryHealth cfg s now1 true).state ∧
    (∀ (s3 : SupState) (e : HealthCacheEntry) (now3 : Nat) (a3 : Bool),
      s3.healthCache = some e → cfg.healthCacheTTL ≤ now3 - e.timestamp →
      (checkBinaryHealth cfg s3 now3 a3).fromCache = false) := by
  have h1 : checkBinaryHealth cfg s now1 true = checkFresh s now1 true :=
    checkBH_none cfg s now1 true hc
  obtain ⟨q1, q2, q3⟩ := checkFresh_live_flags s now1 hp
  have hcache : (checkBinaryHealth cfg s now1 true).state.healthCache =
      some ⟨(checkBinaryHealth cfg s now1 true).metrics, now1⟩ := by
    rw [h1]; exact q3
  have hhit := checkBH_hit cfg (checkBinaryHealth cfg s now1 true).state now2 a2
    ⟨(checkBinaryHealth cfg s now1 true).metrics, now1⟩ hcache httl
  rw [hhit]
  refine ⟨by rw [h1]; exact q1, by rw [h1]; exact q2, rfl, rfl, rfl, rfl, rfl, ?_⟩
  intro s3 e now3 a3 hc3 hstale
  rw [checkBH_stale cfg s3 now3 a3 e hc3 (by omega)]
  exact checkFresh_fromCache s3 now3 a3

/-- Claim C3 witness: the amended cache property evaluated at a concrete
fresh state and two calls at time 0. -/
theorem c3_cache_amended_witness :
    (checkBinaryHealth cfgEx
      (checkBinaryHealth cfgEx (startState cfgEx 0) 0 true).state 0 true).fromCache = true :=
  (c3_cache_amended cfgEx (startState cfgEx 0) 0 0 true rfl rfl (by decide)).2.2.1

/-- Claim C4: the health hook returns exactly the verdict
isRunning AND not hasErrors AND (uptimeIncreasing OR uptime above zero)
computed from the metrics produced by the evaluator. -/
theorem c4_health_verdict_formula (cfg : SupCfg) (s : SupState) (now : Nat) (pidAlive : Bool) :
    (healthHook cfg s now pidAlive).1 =
      ((checkBinaryHealth cfg s now pidAlive).metrics.isRunning &&
       !(checkBinaryHealth cfg s now pidAlive).metrics.hasErrors &&
       ((checkBinaryHealth cfg s now pidAlive).metrics.uptimeIncreasing ||
        decide ((checkBinaryHealth cfg s now pidAlive).metrics.uptime > 0))) := rfl

/-- Claim C5: every stderr line is buffered with the ERROR prefix, and
whenever such a prefixed line is among the 50 most recent buffered lines,
a non-cached evaluation of a running child reports hasErrors and the
health verdict is false. -/
theorem c5_stderr_error_prefix_and_detection :
    (∀ (s : SupState) (l : Str),
      ((stderrIngest s l).1).logs = s.logs.push (errPrefixStr ++ l)) ∧
    (∀ (cfg : SupCfg) (s : SupState) (now : Nat) (l : Str),
      s.hasProcess = true → s.healthCache = none →
      (errPrefixStr ++ l) ∈ s.logs.getRecent 50 →
      ((checkBinaryHealth cfg s now true).metrics.hasErrors = true ∧
       (healthHook cfg s now true).1 = false)) := by
  constructor
  · intro s l
    show (stderrIngest s l).1.logs = _
    unfold stderrIngest
    dsimp only
    split <;> rfl
  · intro cfg s now l hp hc hm
    have h1 : checkBinaryHealth cfg s now true = checkFresh s now true :=
      checkBH_none cfg s now true hc
    have herr : (checkBinaryHealth cfg s now true).metrics.hasErrors = true := by
      rw [h1, checkFresh_live_metrics s now hp]
      exact List.any_eq_true.mpr ⟨errPrefixStr ++ l, hm, hasErrorKeyword_errLine l⟩
    refine ⟨herr, ?_⟩
    have hv : (healthHook cfg s now true).1 =
        ((checkBinaryHealth cfg s now true).metrics.isRunning &&
         !(checkBinaryHealth cfg s now true).metrics.hasErrors &&
         ((checkBinaryHealth cfg s now true).metrics.uptimeIncreasing ||
          decide ((checkBinaryHealth cfg s now true).metrics.uptime > 0))) := rfl
    rw [hv, herr]
    simp

/-- Claim C5 witness: a concrete state holding one stderr line makes the
non-cached health verdict false. -/
theorem c5_stderr_witness : (healthHook cfgEx sErrEx 0 true).1 = false :=
  (c5_stderr_error_prefix_and_detection.2 cfgEx sErrEx 0 "boom".toList rfl rfl
    (by decide)).2

/-- Claim C6: uptime extraction equals the newest-first scan of the 50 most
recent lines (first matching line wins), the documented example returns 12,
and a window with no matching line yields 0. -/
theorem c6_uptime_extraction :
    (∀ logs : CircularBuffer,
      extractUptimeFromLogs logs = uptimeScanSpec (logs.getRecent 50)) ∧
    extractUptimeFromLogs ((CircularBuffer.mkEmpty 10).pushAll
      ["starting".toList, "uptime: 5 seconds".toList, "uptime: 12 seconds".toList]) = 12 ∧
    (∀ logs : CircularBuffer,
      (∀ line ∈ logs.getRecent 50, lineUptime line = none) →
      extractUptimeFromLogs logs = 0) := by
  refine ⟨?_, by with_unfolding_all decide, ?_⟩
  · intro logs
    exact extractLoop_eq_scanSpec (logs.getRecent 50)
  · intro logs h
    show extractLoop (logs.getRecent 50) (logs.getRecent 50).length = 0
    rw [extractLoop_eq_scanSpec]
    unfold uptimeScanSpec
    rw [findSome?_none_of_all _ _ (fun x hx => h x (List.mem_reverse.mp hx))]
    rfl

/-- Claim C6 witness: the no-match branch applied to the empty buffer. -/
theorem c6_uptime_extraction_witness :
    extractUptimeFromLogs (CircularBuffer.mkEmpty 10) = 0 :=
  c6_uptime_extraction.2.2 (CircularBuffer.mkEmpty 10) (by decide)

/-- Claim C7 counterexample: recent with argument 0 on a buffer holding one
line returns that line, not the last zero lines, because JavaScript
slice(-0) is slice(0). -/
theorem c7_recent_zero_counterexample :
    (((CircularBuffer.mkEmpty 3).push "a".toList).getRecent 0 = ["a".toList]) ∧
    (((CircularBuffer.mkEmpty 3).push "a".toList).getRecent 0 ≠ []) := by
  decide

/-- Claim C7 (amended): for every push sequence into a buffer of positive
capacity N, the stored size never exceeds N, and for every k between 1 and
N, recent k returns exactly the last k pushed lines in push order (all of
them when fewer than k were pushed).  The case k equal to 0 is excluded:
there the source returns the whole window. -/
theorem c7_ring_buffer_amended (N : Nat) (hN : 0 < N) (ps : List Str) (k : Nat)
    (hk1 : 1 ≤ k) (hk2 : k ≤ N) :
    ((CircularBuffer.mkEmpty N).pushAll ps).size ≤ N ∧
    ((CircularBuffer.mkEmpty N).pushAll ps).getRecent k = ps.drop (ps.length - k) :=
  ⟨size_pushAll_le N hN ps, getRecent_pushAll N hN ps k hk1 hk2⟩

/-- Claim C7 witness: four pushes into a capacity-3 buffer; recent 2 yields
the last two lines. -/
theorem c7_ring_buffer_witness :
    ((CircularBuffer.mkEmpty 3).pushAll
      ["a".toList, "b".toList, "c".toList, "d".toList]).getRecent 2 =
      ["c".toList, "d".toList] := by
  have h := c7_ring_buffer_amended 3 (by decide)
    ["a".toList, "b".toList, "c".toList, "d".toList] 2 (by decide) (by decide)
  rw [h.2]
  decide

/-- Claim C8: the computed backoff equals the jitter-free value
min of baseDelay times 2 to the attempt and maxDelay, plus an integer
jitter in the interval from 0 up to but excluding three tenths of that
value; the jitter-free value is non-decreasing in the attempt index; and
the computed backoff never exceeds thirteen tenths of maxDelay. -/
theorem c8_backoff_properties (k baseDelay maxDelay : Nat) (r : Rat)
    (hr0 : 0 ≤ r) (hr1 : r < 1) (hb : 0 < baseDelay) (hm : 0 < maxDelay) :
    (∃ j : Int, 0 ≤ j ∧ (j : Rat) < (3 / 10) * (backoffBase k baseDelay maxDelay : Rat) ∧
      calculateBackoff k baseDelay maxDelay r = (backoffBase k baseDelay maxDelay : Int) + j) ∧
    backoffBase k baseDelay maxDelay ≤ backoffBase (k + 1) baseDelay maxDelay ∧
    ((calculateBackoff k baseDelay maxDelay r : Rat) ≤ (13 / 10) * (maxDelay : Rat)) := by
  set d : Nat := backoffBase k baseDelay maxDelay with hd
  have hdpos : 0 < d := by
    rw [hd]
    unfold backoffBase
    exact lt_min (Nat.mul_pos hb (Nat.two_pow_pos k)) hm
  have hdq : (0 : Rat) < (d : Rat) := by exact_mod_cast hdpos
  have hjit0 : 0 ≤ r * (3 / 10) * (d : Rat) :=
    mul_nonneg (mul_nonneg hr0 (by norm_num)) hdq.le
  have hjitlt : r * (3 / 10) * (d : Rat) < (3 / 10) * (d : Rat) := by
    have h30 : (0 : Rat) < (3 / 10) * (d : Rat) := by positivity
    calc r * (3 / 10) * (d : Rat) = r * ((3 / 10) * (d : Rat)) := by ring
      _ < 1 * ((3 / 10) * (d : Rat)) := mul_lt_mul_of_pos_right hr1 h30
      _ = (3 / 10) * (d : Rat) := by ring
  have hfloor : calculateBackoff k baseDelay maxDelay r =
      (d : Int) + ⌊r * (3 / 10) * (d : Rat)⌋ := by
    unfold calculateBackoff
    rw [← hd]
    dsimp only
    rw [show ((d : Nat) : Rat) = (((d : Nat) : Int) : Rat) by push_cast; ring]
    exact Int.floor_int_add (d : Int) _
  refine ⟨⟨⌊r * (3 / 10) * (d : Rat)⌋, Int.floor_nonneg.mpr hjit0, ?_, hfloor⟩, ?_, ?_⟩
  · calc (⌊r * (3 / 10) * (d : Rat)⌋ : Rat) ≤ r * (3 / 10) * (d : Rat) := Int.floor_le _
      _ < (3 / 10) * (d : Rat) := hjitlt
  · rw [hd]
    unfold backoffBase
    refine min_le_min ?_ (le_refl maxDelay)
    exact Nat.mul_le_mul_left baseDelay (Nat.pow_le_pow_right (by norm_num) (by omega))
  · have h1 : ((calculateBackoff k baseDelay maxDelay r : Int) : Rat) ≤
        (d : Rat) + r * (3 / 10) * (d : Rat) := by
      rw [hfloor]
      push_cast
      have hle := Int.floor_le (r * (3 / 10) * (d : Rat))
      linarith
    have h3 : (d : Rat) ≤ (maxDelay : Rat) := by
      have : d ≤ maxDelay := by rw [hd]; exact min_le_right _ _
      exact_mod_cast this
    have h4 : (13 / 10 : Rat) * (d : Rat) ≤ (13 / 10) * (maxDelay : Rat) :=
      mul_le_mul_of_nonneg_left h3 (by norm_num)
    linarith

/-- Claim C8 witness: the backoff bound at attempt 2, base 1000, max 30000,
random draw one half. -/
theorem c8_backoff_witness :
    ((calculateBackoff 2 1000 30000 (1 / 2) : Int) : Rat) ≤ (13 / 10) * (30000 : Rat) :=
  (c8_backoff_properties 2 1000 30000 (1 / 2)
    (by norm_num) (by norm_num) (by norm_num) (by norm_num)).2.2

/-- Claim C9: ingesting a stderr line sends SIGTERM exactly when the
lowercased line contains both an invalid token and a secret token as
substrings, and neither a health call nor a stdout line ever emits a
signal. -/
theorem c9_invalid_secret_sigterm (cfg : SupCfg) (s : SupState) (l : Str) :
    ((Effect.sigterm ∈ (step cfg s (Event.stderrLine l)).2) ↔
      ((∃ i, ((toLowerStr l).drop i).take 7 = "invalid".toList) ∧
       (∃ j, ((toLowerStr l).drop j).take 6 = "secret".toList))) ∧
    (∀ (now : Nat) (a : Bool), (step cfg s (Event.healthCall now a)).2 = []) ∧
    (∀ l2 : Str, (step cfg s (Event.stdoutLine l2)).2 = []) := by
  refine ⟨?_, fun now a => rfl, fun l2 => rfl⟩
  show (Effect.sigterm ∈ (stderrIngest s l).2) ↔ _
  unfold stderrIngest
  dsimp only
  by_cases hcond : (containsSubstr "invalid".toList (toLowerStr l) &&
      containsSubstr "secret".toList (toLowerStr l)) = true
  · rw [if_pos hcond]
    constructor
    · intro _
      rw [Bool.and_eq_true] at hcond
      exact ⟨(containsSubstr_iff "invalid".toList (toLowerStr l)).mp hcond.1,
             (containsSubstr_iff "secret".toList (toLowerStr l)).mp hcond.2⟩
    · intro _
      exact List.mem_singleton.mpr rfl
  · rw [if_neg hcond]
    constructor
    · intro hmem
      exact absurd hmem (List.not_mem_nil _)
    · rintro ⟨⟨i, hi⟩, ⟨j, hj⟩⟩
      have h1 : containsSubstr "invalid".toList (toLowerStr l) = true :=
        (containsSubstr_iff "invalid".toList (toLowerStr l)).mpr ⟨i, hi⟩
      have h2 : containsSubstr "secret".toList (toLowerStr l) = true :=
        (containsSubstr_iff "secret".toList (toLowerStr l)).mpr ⟨j, hj⟩
      exact absurd (by rw [h1, h2]; rfl) hcond

/-- Claim C9 witness: the documented credential-rejection line triggers the
graceful-terminate signal. -/
theorem c9_invalid_secret_sigterm_witness :
    Effect.sigterm ∈ (step cfgEx (startState cfgEx 0)
      (Event.stderrLine "Error: invalid secret provided".toList)).2 :=
  (c9_invalid_secret_sigterm cfgEx (startState cfgEx 0)
    "Error: invalid secret provided".toList).1.mpr
    ⟨⟨7, by decide⟩, ⟨15, by decide⟩⟩

/-- Claim C10: stop on a live child sends the graceful signal first, sends
the forceful kill exactly when every 100 ms poll within the shutdown
timeout still found the child alive, swallows wrapper-cleanup failures,
and resets the state (handle gone, health false, buffer emptied, snapshot
invalidated) on every termination path. -/
theorem c10_stop_behaviour (cfg : SupCfg) (s : SupState) (alive : Nat → Bool) (u : Bool)
    (hp : s.hasProcess = true) :
    (stopHook cfg s alive u).effects.head? = some Effect.sigterm ∧
    ((Effect.sigkill ∈ (stopHook cfg s alive u).effects) ↔
      (∀ k, k < numPolls cfg.shutdownTimeout → alive k = true)) ∧
    (stopHook cfg s alive u).threw = false ∧
    (stopHook cfg s alive u).state.hasProcess = false ∧
    (stopHook cfg s alive u).state.isHealthy = false ∧
    (stopHook cfg s alive u).state.logs.getAll = [] ∧
    (stopHook cfg s alive u).state.healthCache = none := by
  have hs : stopHook cfg s alive u =
      ⟨[Effect.sigterm] ++
        (if !(pollLoop alive 0 (numPolls cfg.shutdownTimeout)) then [Effect.sigkill] else []),
       { s with hasProcess := false, childAlive := false, isHealthy := false,
                logs := s.logs.clear, healthCache := none }, false⟩ := by
    unfold stopHook
    rw [hp]
    rfl
  rw [hs]
  refine ⟨rfl, ?_, rfl, rfl, rfl, ?_, rfl⟩
  · cases hpl : pollLoop alive 0 (numPolls cfg.shutdownTimeout) with
    | false =>
      constructor
      · intro _
        exact (pollLoop_zero_false_iff alive _).mp hpl
      · intro _
        show Effect.sigkill ∈ [Effect.sigterm, Effect.sigkill]
        simp
    | true =>
      constructor
      · intro hmem
        have hmem2 : Effect.sigkill ∈ [Effect.sigterm] := hmem
        exact absurd hmem2 (by decide)
      · intro hall
        have hfalse := (pollLoop_zero_false_iff alive _).mpr hall
        rw [hpl] at hfalse
        exact absurd hfalse (by simp)
  · show (s.logs.clear).getAll = []
    rfl

/-- Claim C10 witness: a child that ignores the graceful signal for the
whole timeout receives the forceful kill. -/
theorem c10_stop_witness :
    Effect.sigkill ∈ (stopHook cfgEx (startState cfgEx 0) (fun _ => true) true).effects :=
  ((c10_stop_behaviour cfgEx (startState cfgEx 0) (fun _ => true) true rfl).2.1).mpr
    (fun k _ => rfl)
